import Mathlib

/-!
Verification of the log-correlation ETL pipeline of `findora-agentd`
(`src/findora/src/commands.rs`, `Cli::etl_cmd`), against its natural-language
specification.  Log lines are modelled as `List Char` (the decoded UTF-8 text);
Rust byte indexing and `is_char_boundary` are modelled through the per-char
UTF-8 byte sizes.  `u64` values become `Nat` (a successful `parse::<u64>()`
always yields a value below `2 ^ 64`, and the one `u64` addition in the
record construction wraps modulo `2 ^ 64`, Rust release semantics), the `i64`
timestamp from `chrono` becomes `Int`.  Fallible Rust steps (`unwrap`,
`expect`, slice panics, index panics) become `Except EtlErr`.
-/

namespace FindoraEtl

/-- The per-block record, translated from `struct BlockInfo` in
`src/findora/src/commands.rs` (fields `height, timestamp, txs, valid_txs,
block_time, begin, snapshot, end, commit, commit_evm`).  `#[derive(Default)]`
zero-initialises every numeric field and leaves `block_time` as `None`. -/
structure BlockInfo where
  height : Nat
  timestamp : Int
  txs : Nat
  valid_txs : Nat
  block_time : Option Nat
  begin : Nat
  snapshot : Nat
  «end» : Nat
  commit : Nat
  commit_evm : Nat
deriving DecidableEq, Repr

/-- `Display for BlockInfo`: `write!(f, "{},{},{},{},{},{},{},{}", self.height,
block_time, self.txs, self.begin, self.snapshot, self.end, self.commit,
self.commit_evm)` with `block_time = self.block_time.unwrap_or(0)`. -/
def formatBlockInfo (bi : BlockInfo) : String :=
  toString bi.height ++ "," ++ toString (bi.block_time.getD 0) ++ "," ++
  toString bi.txs ++ "," ++ toString bi.begin ++ "," ++ toString bi.snapshot ++ "," ++
  toString bi.«end» ++ "," ++ toString bi.commit ++ "," ++ toString bi.commit_evm

/-- Number of bytes of the UTF-8 encoding of a character (Rust `char::len_utf8`). -/
def charSize (c : Char) : Nat :=
  if c.val < 0x80 then 1 else if c.val < 0x800 then 2 else if c.val < 0x10000 then 3 else 4

/-- Byte length of the UTF-8 encoding of a string (Rust `str::len`). -/
def byteLen (l : List Char) : Nat := (l.map charSize).sum

/-- Drop the first `n` bytes of a string: the model of the Rust suffix slice
`&s[n..]`.  Returns `none` exactly when Rust would panic, i.e. when `n` is past
the end of the string or falls strictly inside the UTF-8 encoding of one
character (not a char boundary). -/
def byteDrop : Nat → List Char → Option (List Char)
  | 0, l => some l
  | _ + 1, [] => none
  | n + 1, c :: cs =>
    if charSize c ≤ n + 1 then byteDrop (n + 1 - charSize c) cs else none

/-- Take the first `n` bytes of a string; `none` when byte index `n` is out of
range or not a char boundary.  `&s[a..b]` is modelled as `byteDrop a`
followed by `byteTake (b - a)`. -/
def byteTake : Nat → List Char → Option (List Char)
  | 0, _ => some []
  | _ + 1, [] => none
  | n + 1, c :: cs =>
    if charSize c ≤ n + 1 then (byteTake (n + 1 - charSize c) cs).map (fun t => c :: t)
    else none

/-- Rust `str::is_char_boundary n`: `n` is `0`, the byte length, or the start
of a character's UTF-8 encoding; `false` past the end of the string. -/
def isCharBoundary : List Char → Nat → Bool
  | _, 0 => true
  | [], _ + 1 => false
  | c :: cs, n + 1 =>
    if charSize c ≤ n + 1 then isCharBoundary cs (n + 1 - charSize c) else false

/-- Rust `str::contains` with a literal pattern (substring search). -/
def containsSub : List Char → List Char → Bool
  | [], needle => needle.isEmpty
  | hay@(_ :: t), needle => needle.isPrefixOf hay || containsSub t needle

/-- Rust `str::split(sep)`: splits on every occurrence of `sep`, keeping empty
pieces; the result is never empty. -/
def splitOnC (sep : Char) : List Char → List (List Char)
  | [] => [[]]
  | c :: rest =>
    match splitOnC sep rest with
    | [] => if c = sep then [[], []] else [[c]]
    | w :: ws => if c = sep then [] :: w :: ws else (c :: w) :: ws

/-- Rust `char::is_whitespace` (the Unicode `White_Space` property). -/
def isRustWs (c : Char) : Bool :=
  c.toNat == 0x09 || c.toNat == 0x0A || c.toNat == 0x0B || c.toNat == 0x0C ||
  c.toNat == 0x0D || c.toNat == 0x20 || c.toNat == 0x85 || c.toNat == 0xA0 ||
  c.toNat == 0x1680 || (Nat.ble 0x2000 c.toNat && Nat.ble c.toNat 0x200A) ||
  c.toNat == 0x2028 || c.toNat == 0x2029 || c.toNat == 0x202F ||
  c.toNat == 0x205F || c.toNat == 0x3000

/-- Rust `str::trim`: strip leading and trailing whitespace. -/
def trimChars (l : List Char) : List Char :=
  ((l.dropWhile isRustWs).reverse.dropWhile isRustWs).reverse

/-- Accumulator-based worker for `splitWs`. -/
def splitWsAux : List Char → List Char → List (List Char)
  | acc, [] => if acc.isEmpty then [] else [acc.reverse]
  | acc, c :: t =>
    if isRustWs c then
      if acc.isEmpty then splitWsAux [] t else acc.reverse :: splitWsAux [] t
    else splitWsAux (c :: acc) t

/-- Rust `str::split_whitespace`: maximal non-whitespace runs, no empty pieces. -/
def splitWs (l : List Char) : List (List Char) := splitWsAux [] l

/-- Rust `str::parse::<u64>()` as used on the extracted tokens: an optional
leading `+`, then one or more ASCII digits, value below `2 ^ 64`
(`parse` fails with overflow otherwise). -/
def parseU64 (l : List Char) : Option Nat :=
  let ds := match l with | '+' :: t => t | _ => l
  if ds.isEmpty then none
  else if ds.all Char.isDigit then
    let n := ds.foldl (fun a c => a * 10 + (c.toNat - 48)) 0
    if n < 18446744073709551616 then some n else none
  else none

/-- Days from 1970-01-01 to year `y`, month `m`, day `d` (proleptic Gregorian,
`0 ≤ y ≤ 9999`); the standard civil-from-days algorithm, with the year shifted
by `+400` so that all intermediate quantities stay in `Nat`. -/
def daysFromCivil (y m d : Nat) : Int :=
  let yy := if m ≤ 2 then y + 399 else y + 400
  let era := yy / 400
  let yoe := yy % 400
  let mp := (m + 9) % 12
  let doy := (153 * mp + 2) / 5 + d - 1
  let doe := yoe * 365 + yoe / 4 - yoe / 100 + doy
  (Int.ofNat (era * 146097 + doe)) - 865565

/-- Proleptic Gregorian leap year. -/
def isLeapYear (y : Nat) : Bool :=
  (y % 4 == 0 && y % 100 != 0) || y % 400 == 0

/-- Days in a month. -/
def daysInMonth (y m : Nat) : Nat :=
  if m == 2 then (if isLeapYear y then 29 else 28)
  else if m == 4 || m == 6 || m == 9 || m == 11 then 30 else 31

/-- `NaiveDateTime::parse_from_str(time_str, "%Y-%m-%d|%H:%M:%S%.3f")`
followed by `.timestamp()`, on the fixed-width 23-byte shape
`YYYY-MM-DD|HH:MM:SS.mmm` that the specification gives for the consensus-log
timestamp field (the parse must consume the whole 23-byte slice; the
millisecond digits are validated but do not contribute to the whole-second
Unix timestamp). -/
def parseTimestamp (l : List Char) : Option Int :=
  match l with
  | [y1, y2, y3, y4, '-', m1, m2, '-', d1, d2, '|',
     h1, h2, ':', n1, n2, ':', s1, s2, '.', f1, f2, f3] =>
    if y1.isDigit && y2.isDigit && y3.isDigit && y4.isDigit && m1.isDigit && m2.isDigit &&
       d1.isDigit && d2.isDigit && h1.isDigit && h2.isDigit && n1.isDigit && n2.isDigit &&
       s1.isDigit && s2.isDigit && f1.isDigit && f2.isDigit && f3.isDigit then
      let y := (y1.toNat - 48) * 1000 + (y2.toNat - 48) * 100 + (y3.toNat - 48) * 10 + (y4.toNat - 48)
      let mo := (m1.toNat - 48) * 10 + (m2.toNat - 48)
      let dy := (d1.toNat - 48) * 10 + (d2.toNat - 48)
      let hh := (h1.toNat - 48) * 10 + (h2.toNat - 48)
      let mi := (n1.toNat - 48) * 10 + (n2.toNat - 48)
      let ss := (s1.toNat - 48) * 10 + (s2.toNat - 48)
      if 1 ≤ mo ∧ mo ≤ 12 ∧ 1 ≤ dy ∧ dy ≤ daysInMonth y mo ∧ hh ≤ 23 ∧ mi ≤ 59 ∧ ss ≤ 59 then
        some (daysFromCivil y mo dy * 86400 + Int.ofNat (hh * 3600 + mi * 60 + ss))
      else none
    else none
  | _ => none

/-- Store get outcome.  `notFound` is "no value under this key"; `ioFailure`
is a transport-level failure such as a refused connection. -/
inductive GetErr
  | notFound
  | ioFailure
deriving DecidableEq, Repr

/-- Modelled from the spec: the key-value Record Store (`crate::db::Db`; the
file `db.rs` is not part of the sources under `src/`, only its caller
`etl_cmd` is).  Spec section 6: `get(height) -> bytes | NotFound`,
`put(height, value) -> ok | error`.  `data` is the logical key-value content;
`getFail` / `putFail` are the keys at which the transport fails, injecting the
spec's "store I/O failure" cases.  Values are held as deserialized
`BlockInfo`s, since `serde_json::to_string` / `from_str` round-trip
`BlockInfo` losslessly. -/
structure Db where
  data : List (Nat × BlockInfo)
  getFail : List Nat
  putFail : List Nat
deriving DecidableEq, Repr

/-- Value stored under key `h`, if any (first match). -/
def lookupData (h : Nat) : List (Nat × BlockInfo) → Option BlockInfo
  | [] => none
  | p :: t => if p.1 = h then some p.2 else lookupData h t

/-- Remove every entry stored under key `h`. -/
def eraseKey (h : Nat) : List (Nat × BlockInfo) → List (Nat × BlockInfo)
  | [] => []
  | p :: t => if p.1 = h then eraseKey h t else p :: eraseKey h t

/-- Overwriting insert into the store content (redis `SET` semantics). -/
def insertData (h : Nat) (bi : BlockInfo) (data : List (Nat × BlockInfo)) :
    List (Nat × BlockInfo) :=
  (h, bi) :: eraseKey h data

/-- Modelled from the spec: `Db::get` (spec section 6). -/
def dbGet (db : Db) (h : Nat) : Except GetErr BlockInfo :=
  if db.getFail.contains h then .error .ioFailure
  else
    match lookupData h db.data with
    | some bi => .ok bi
    | none => .error .notFound

/-- Modelled from the spec: `Db::insert` (spec section 6 `put`). -/
def dbInsert (db : Db) (h : Nat) (bi : BlockInfo) : Except Unit Db :=
  if db.putFail.contains h then .error ()
  else .ok { db with data := insertData h bi db.data }

/-- The ways a pass can abort: a byte-slice panic, a `Vec` index panic, an
`Option::unwrap` / `parse().unwrap()` panic, and the `.expect(..)` panic on a
failed store insert. -/
inductive EtlErr
  | slicePanic
  | indexPanic
  | unwrapPanic
  | insertPanic
deriving DecidableEq, Repr

/-- Run a pass line by line, stopping at the first abort (each Rust pass is a
sequential loop whose body can panic). -/
def runPass {σ α : Type} (f : σ → α → Except EtlErr σ) : σ → List α → Except EtlErr σ
  | st, [] => .ok st
  | st, x :: xs =>
    match f st x with
    | .ok st' => runPass f st' xs
    | .error e => .error e

/-- `true` on `.ok`. -/
def exceptOk {ε σ : Type} : Except ε σ → Bool
  | .ok _ => true
  | .error _ => false

/-- State of the consensus-log (tendermint) pass: the store plus the running
`min_height` / `max_height`. -/
structure TmState where
  db : Db
  minH : Nat
  maxH : Nat
deriving DecidableEq, Repr

/-- `"Executed block"`, the consensus-log marker. -/
def execMarker : List Char := "Executed block".data

/-- `"tps,"`, the application-log marker. -/
def tpsMarker : List Char := "tps,".data

/-- `"end of begin_block"`. -/
def beginMarker : List Char := "end of begin_block".data

/-- `"end of end_block"`. -/
def endMarker : List Char := "end of end_block".data

/-- `"end of commit"`. -/
def commitMarker : List Char := "end of commit".data

/-- The `key=value` scan of the consensus-log line: for each
whitespace-delimited word, split on `=`; words that do not split into exactly
two pieces are skipped; the keys `height`, `validTxs`, `invalidTxs` each
overwrite their slot of the accumulator `(height?, validTxs?, invalidTxs?)`
with `kv[1].parse::<u64>().ok()`; other keys are ignored. -/
def scanKv : (Option Nat × Option Nat × Option Nat) → List (List Char) →
    (Option Nat × Option Nat × Option Nat)
  | acc, [] => acc
  | (h, v, i), w :: ws =>
    match splitOnC '=' w with
    | [k, val] =>
      if k == "height".data then scanKv (parseU64 val, v, i) ws
      else if k == "validTxs".data then scanKv (h, parseU64 val, i) ws
      else if k == "invalidTxs".data then scanKv (h, v, parseU64 val) ws
      else scanKv (h, v, i) ws
    | _ => scanKv (h, v, i) ws

/-- One line of the consensus-log (tendermint) pass of `etl_cmd`: lines
containing `"Executed block"` are parsed (timestamp from the byte slice
`l[2..25]`, the rest from `key=value` words), a fresh `BlockInfo` is built
(panicking via `unwrap` if any of the four fields is missing; the `u64`
addition `validTxs + invalidTxs` wraps modulo `2 ^ 64`),
`min_height` / `max_height` are updated, and the record is inserted under its
height (`expect` panics on a store failure).  Other lines are skipped. -/
def processTmLine (s : TmState) (l : List Char) : Except EtlErr TmState :=
  if containsSub l execMarker then
    match byteDrop 2 l with
    | none => .error .slicePanic
    | some r =>
      match byteTake 23 r with
      | none => .error .slicePanic
      | some timeStr =>
        let ts := parseTimestamp timeStr
        let kv := scanKv (none, none, none) (splitWs l)
        match kv.1, ts, kv.2.1, kv.2.2 with
        | some h, some t, some v, some i =>
          let bi : BlockInfo :=
            { height := h, timestamp := t, txs := (v + i) % 18446744073709551616,
              valid_txs := v, block_time := none, begin := 0, snapshot := 0,
              «end» := 0, commit := 0, commit_evm := 0 }
          let mn := if s.minH > h then h else s.minH
          let mx := if s.maxH < h then h else s.maxH
          match dbInsert s.db h bi with
          | .ok db' => .ok ⟨db', mn, mx⟩
          | .error _ => .error .insertPanic
        | _, _, _, _ => .error .unwrapPanic
  else .ok s

/-- `words[i].parse::<u64>().unwrap()`: a `Vec` index panic when `i` is out of
range, an `unwrap` panic when the token is not a `u64`. -/
def getWordNum (words : List (List Char)) (i : Nat) : Except EtlErr Nat :=
  match words.get? i with
  | none => .error .indexPanic
  | some w =>
    match parseU64 w with
    | none => .error .unwrapPanic
    | some n => .ok n

/-- `words[words.len() - 2].split_whitespace().collect::<Vec<_>>()[1]
.parse::<u64>().unwrap()`: extraction of the `td_height N` token.  With fewer
than two comma-pieces the `words.len() - 2` index panics (usize underflow). -/
def parseHeightTok (words : List (List Char)) : Except EtlErr Nat :=
  if words.length < 2 then .error .indexPanic
  else
    match words.get? (words.length - 2) with
    | none => .error .indexPanic
    | some w =>
      match (splitWs w).get? 1 with
      | none => .error .indexPanic
      | some t =>
        match parseU64 t with
        | none => .error .unwrapPanic
        | some n => .ok n

/-- One line of the application-log (abcid) pass of `etl_cmd`: lines
containing `"tps,"` are sliced at byte 52, split on commas, and dispatched on
the trimmed last piece; each phase branch extracts the `td_height`, then, only
when `db.get(height)` succeeds, parses its duration fields, mutates exactly
those fields of the fetched record and writes it back under `bi.height`
(`expect` panics on a store failure); a failed `get` makes the whole update a
silent no-op.  Other lines, and unknown trailing markers, are skipped. -/
def processAbciLine (db : Db) (l : List Char) : Except EtlErr Db :=
  if containsSub l tpsMarker then
    match byteDrop 52 l with
    | none => .error .slicePanic
    | some rest =>
      let words := splitOnC ',' rest
      match (words.getLast?).map trimChars with
      | none => .ok db
      | some m =>
        if m == beginMarker then
          match parseHeightTok words with
          | .error e => .error e
          | .ok height =>
            match dbGet db height with
            | .error _ => .ok db
            | .ok bi =>
              match getWordNum words 2 with
              | .error e => .error e
              | .ok snap =>
                match getWordNum words 3 with
                | .error e => .error e
                | .ok beg =>
                  match dbInsert db bi.height { bi with snapshot := snap, begin := beg } with
                  | .ok db' => .ok db'
                  | .error _ => .error .insertPanic
        else if m == endMarker then
          match parseHeightTok words with
          | .error e => .error e
          | .ok height =>
            match dbGet db height with
            | .error _ => .ok db
            | .ok bi =>
              match getWordNum words 2 with
              | .error e => .error e
              | .ok en =>
                match dbInsert db bi.height { bi with «end» := en } with
                | .ok db' => .ok db'
                | .error _ => .error .insertPanic
        else if m == commitMarker then
          match parseHeightTok words with
          | .error e => .error e
          | .ok height =>
            match dbGet db height with
            | .error _ => .ok db
            | .ok bi =>
              match getWordNum words 3 with
              | .error e => .error e
              | .ok cev =>
                match getWordNum words 4 with
                | .error e => .error e
                | .ok cm =>
                  match dbInsert db bi.height { bi with commit_evm := cev, commit := cm } with
                  | .ok db' => .ok db'
                  | .error _ => .error .insertPanic
        else .ok db
  else .ok db

/-- The records fetched by the report loop `for h in min_height..=max_height`:
one record per height whose `db.get(h)` succeeds, in ascending height order;
heights whose `get` fails are skipped silently. -/
def reportRecs (db : Db) (lo hi : Nat) : List BlockInfo :=
  (List.range' lo (hi + 1 - lo)).filterMap (fun h => (dbGet db h).toOption)

/-- The lines printed by the report loop (`println!("{}", bi)` per fetched
record). -/
def reportLines (db : Db) (lo hi : Nat) : List String :=
  (List.range' lo (hi + 1 - lo)).filterMap
    (fun h => ((dbGet db h).toOption).map formatBlockInfo)

/-- `Cli::etl_cmd`, as written in `src/findora/src/commands.rs`: the
consensus-log pass (starting from `min_height = u64::MAX`,
`max_height = u64::MIN`), then the application-log pass, then the report loop.
The `load` parameter is printed on entry and otherwise unused by the source;
there is no block-time derive pass in the source.  Returns the final state and
the printed report. -/
def etlCmd (db : Db) (tmLines abciLines : List (List Char)) (load : Bool) :
    Except EtlErr (TmState × List String) :=
  match runPass processTmLine ⟨db, 18446744073709551615, 0⟩ tmLines with
  | .error e => .error e
  | .ok s =>
    match runPass processAbciLine s.db abciLines with
    | .error e => .error e
    | .ok db2 => .ok (⟨db2, s.minH, s.maxH⟩, reportLines db2 s.minH s.maxH)

/-- Modelled from the spec: the Block-Time Deriver (spec section 4.4) is not
part of the sources under `src/` (the source revision there never assigns
`block_time`; only the field and its consumers appear).  Spec: for each height
`h` in `(min_height, max_height]` in ascending order, fetch the records at `h`
and `h - 1`; if both exist and `timestamp(h) >= timestamp(h-1)`, set
`block_time(h) = timestamp(h) - timestamp(h-1)`; otherwise leave `block_time(h)`
unset.  A store put failure is fatal (spec section 7). -/
def deriveStep (db : Db) (h : Nat) : Except EtlErr Db :=
  match dbGet db h, dbGet db (h - 1) with
  | .ok cur, .ok prev =>
    if prev.timestamp ≤ cur.timestamp then
      match dbInsert db h { cur with block_time := some (cur.timestamp - prev.timestamp).toNat } with
      | .ok db' => .ok db'
      | .error _ => .error .insertPanic
    else .ok db
  | _, _ => .ok db

/-- Modelled from the spec: the full derive pass over `(min_height, max_height]`
in ascending order (spec section 4.4). -/
def derivePass (db : Db) (lo hi : Nat) : Except EtlErr Db :=
  runPass deriveStep db (List.range' (lo + 1) (hi - lo))

/-- Erase the `block_time` field; used to state that the derive pass changes
nothing but `block_time`. -/
def stripBT (bi : BlockInfo) : BlockInfo := { bi with block_time := none }

/-- The store is well-formed when every entry is keyed by its record's own
height (the invariant the consensus-log pass establishes: it always inserts
`bi` under key `bi.height`). -/
def wellFormedB (db : Db) : Bool :=
  db.data.all (fun p => p.2.height == p.1)

/-! ### Byte-slice lemmas -/

theorem charSize_pos (c : Char) : 0 < charSize c := by
  unfold charSize
  repeat' split
  all_goals omega

theorem byteLen_cons (c : Char) (cs : List Char) :
    byteLen (c :: cs) = charSize c + byteLen cs := by
  simp [byteLen]

theorem byteDrop_isSome (l : List Char) :
    ∀ n, (byteDrop n l).isSome = isCharBoundary l n := by
  induction l with
  | nil => intro n; cases n <;> rfl
  | cons c cs ih =>
    intro n
    cases n with
    | zero => rfl
    | succ m =>
      simp only [byteDrop, isCharBoundary]
      split
      · exact ih _
      · rfl

theorem byteDrop_none_of_lt (l : List Char) :
    ∀ n, byteLen l < n → byteDrop n l = none := by
  induction l with
  | nil =>
    intro n h
    cases n with
    | zero => omega
    | succ m => rfl
  | cons c cs ih =>
    intro n h
    cases n with
    | zero => omega
    | succ m =>
      rw [byteLen_cons] at h
      simp only [byteDrop]
      split
      · exact ih _ (by omega)
      · rfl

theorem boundary_false_of_lt (l : List Char) (n : Nat) (h : byteLen l < n) :
    isCharBoundary l n = false := by
  rw [← byteDrop_isSome, byteDrop_none_of_lt l n h]
  rfl

theorem byteDrop_none_of_not_boundary (l : List Char) (n : Nat)
    (h : isCharBoundary l n = false) : byteDrop n l = none := by
  have hs := byteDrop_isSome l n
  rw [h] at hs
  exact Option.not_isSome_iff_eq_none.mp (by rw [hs]; exact Bool.false_ne_true)

theorem byteDrop_add (l : List Char) :
    ∀ a b r, byteDrop a l = some r → byteDrop (a + b) l = byteDrop b r := by
  induction l with
  | nil =>
    intro a b r h
    cases a with
    | zero =>
      cases h
      rw [Nat.zero_add]
    | succ m => exact absurd h (by simp [byteDrop])
  | cons c cs ih =>
    intro a b r h
    cases a with
    | zero =>
      cases h
      rw [Nat.zero_add]
    | succ m =>
      simp only [byteDrop] at h
      split at h
      · next hle =>
        have h2 : m + 1 + b = (m + b) + 1 := by omega
        rw [h2]
        simp only [byteDrop]
        rw [if_pos (by omega)]
        have h3 : m + b + 1 - charSize c = (m + 1 - charSize c) + b := by omega
        rw [h3]
        exact ih _ _ _ h
      · exact absurd h (by simp)

theorem byteTake_isSome (l : List Char) :
    ∀ n, (byteTake n l).isSome = (byteDrop n l).isSome := by
  induction l with
  | nil => intro n; cases n <;> rfl
  | cons c cs ih =>
    intro n
    cases n with
    | zero => rfl
    | succ m =>
      simp only [byteTake, byteDrop]
      split
      · have hmap : ∀ (o : Option (List Char)),
            (Option.map (fun t => c :: t) o).isSome = o.isSome := by
          intro o; cases o <;> rfl
        rw [hmap]
        exact ih _
      · rfl

/-! ### Pass-runner lemmas -/

theorem runPass_mem_error {σ α : Type} (f : σ → α → Except EtlErr σ) (x : α) (e : EtlErr)
    (hx : ∀ st, f st x = .error e) :
    ∀ (L : List α) (st : σ), x ∈ L → exceptOk (runPass f st L) = false := by
  intro L
  induction L with
  | nil => intro st h; cases h
  | cons y ys ih =>
    intro st h
    rcases List.mem_cons.mp h with rfl | hmem
    · simp [runPass, hx st, exceptOk]
    · simp only [runPass]
      cases hf : f st y with
      | ok st' => exact ih st' hmem
      | error e' => rfl

/-! ### Store lookup lemmas -/

theorem lookupData_mem :
    ∀ {l : List (Nat × BlockInfo)} {k : Nat} {b : BlockInfo},
      lookupData k l = some b → (k, b) ∈ l := by
  intro l
  induction l with
  | nil => intro k b h; cases h
  | cons p t ih =>
    intro k b h
    simp only [lookupData] at h
    split at h
    · next hk =>
      cases h
      rcases p with ⟨k', b'⟩
      simp at hk
      subst hk
      exact List.mem_cons_self _ _
    · exact List.mem_cons_of_mem _ (ih h)

theorem lookupData_insert_self (h : Nat) (bi : BlockInfo) (data : List (Nat × BlockInfo)) :
    lookupData h (insertData h bi data) = some bi := by
  simp [insertData, lookupData]

theorem lookupData_eraseKey (h h' : Nat) (hne : h' ≠ h) :
    ∀ data : List (Nat × BlockInfo),
      lookupData h' (eraseKey h data) = lookupData h' data := by
  intro data
  induction data with
  | nil => rfl
  | cons p t ih =>
    simp only [eraseKey]
    split
    · next hk =>
      rw [ih]
      simp only [lookupData]
      rw [if_neg (by rw [hk]; exact fun hc => hne hc.symm)]
    · simp only [lookupData]
      split
      · rfl
      · exact ih

theorem lookupData_insert_ne (h h' : Nat) (bi : BlockInfo) (data : List (Nat × BlockInfo))
    (hne : h' ≠ h) : lookupData h' (insertData h bi data) = lookupData h' data := by
  simp only [insertData, lookupData]
  rw [if_neg (fun hc => hne hc.symm)]
  exact lookupData_eraseKey h h' hne data

theorem wf_lookup_height (db : Db) (hwf : wellFormedB db = true) {h : Nat} {bi : BlockInfo}
    (hl : lookupData h db.data = some bi) : bi.height = h := by
  have hmem := lookupData_mem hl
  have hall := List.all_eq_true.mp hwf _ hmem
  exact eq_of_beq hall

theorem beq_markers_1 : (endMarker == beginMarker) = false := by decide

theorem beq_markers_2 : (commitMarker == beginMarker) = false := by decide

theorem beq_markers_3 : (commitMarker == endMarker) = false := by decide

/-! ### C9 and C10: byte-slice panics in the two ingestion passes -/

/-- C9: every application-log line containing the marker `"tps,"` whose byte
length is below 52, or for which byte index 52 is not a character boundary,
makes the application-log pass panic at the slice `line[52..]`: the line
processing aborts with a slice panic (not a recoverable skip and not an
ingestion error), and the whole pass over any file containing such a line does
not complete normally. -/
theorem c9_tps_slice_panic (db : Db) (lines : List (List Char)) (l : List Char)
    (hmem : l ∈ lines) (hmark : containsSub l tpsMarker = true)
    (hbad : byteLen l < 52 ∨ isCharBoundary l 52 = false) :
    processAbciLine db l = .error .slicePanic ∧
    exceptOk (runPass processAbciLine db lines) = false := by
  have hdrop : byteDrop 52 l = none := by
    rcases hbad with h | h
    · exact byteDrop_none_of_lt l 52 h
    · exact byteDrop_none_of_not_boundary l 52 h
  have hline : ∀ d : Db, processAbciLine d l = .error .slicePanic := by
    intro d
    simp [processAbciLine, hmark, hdrop]
  exact ⟨hline db, runPass_mem_error _ l _ hline lines db hmem⟩

theorem c9_tps_slice_panic_witness :
    ("tps, short".data ∈ ["tps, short".data] ∧
      containsSub "tps, short".data tpsMarker = true ∧
      byteLen "tps, short".data < 52) ∧
    (processAbciLine ⟨[], [], []⟩ "tps, short".data = .error .slicePanic ∧
      exceptOk (runPass processAbciLine ⟨[], [], []⟩ ["tps, short".data]) = false) :=
  ⟨⟨by simp, by decide, by decide⟩,
    c9_tps_slice_panic ⟨[], [], []⟩ ["tps, short".data] "tps, short".data
      (by simp) (by decide) (Or.inl (by decide))⟩

/-- C10: every consensus-log line containing the marker `"Executed block"`
whose byte length is below 25, or for which byte index 2 or 25 is not a
character boundary, makes the consensus-log pass panic at the slice
`l[2..25]` before any `key=value` extraction: the line processing aborts with
a slice panic, and the whole pass over any file containing such a line does
not complete normally. -/
theorem c10_tm_slice_panic (s : TmState) (lines : List (List Char)) (l : List Char)
    (hmem : l ∈ lines) (hmark : containsSub l execMarker = true)
    (hbad : byteLen l < 25 ∨ isCharBoundary l 2 = false ∨ isCharBoundary l 25 = false) :
    processTmLine s l = .error .slicePanic ∧
    exceptOk (runPass processTmLine s lines) = false := by
  have hline : ∀ st : TmState, processTmLine st l = .error .slicePanic := by
    intro st
    cases hb2 : isCharBoundary l 2 with
    | false =>
      simp [processTmLine, hmark, byteDrop_none_of_not_boundary l 2 hb2]
    | true =>
      have hsome : (byteDrop 2 l).isSome = true := by rw [byteDrop_isSome, hb2]
      rcases Option.isSome_iff_exists.mp hsome with ⟨r, hr⟩
      have hb25 : isCharBoundary l 25 = false := by
        rcases hbad with h | h | h
        · exact boundary_false_of_lt l 25 h
        · rw [h] at hb2; exact absurd hb2 (by simp)
        · exact h
      have hd25 : byteDrop 25 l = none := byteDrop_none_of_not_boundary l 25 hb25
      have hd23 : byteDrop 23 r = none := by
        have := byteDrop_add l 2 23 r hr
        rw [← this]
        exact hd25
      have htake : byteTake 23 r = none := by
        have hs := byteTake_isSome r 23
        rw [hd23] at hs
        exact Option.not_isSome_iff_eq_none.mp (by rw [hs]; exact Bool.false_ne_true)
      simp [processTmLine, hmark, hr, htake]
  exact ⟨hline s, runPass_mem_error _ l _ hline lines s hmem⟩

theorem c10_tm_slice_panic_witness :
    ("I[] Executed block".data ∈ ["I[] Executed block".data] ∧
      containsSub "I[] Executed block".data execMarker = true ∧
      byteLen "I[] Executed block".data < 25) ∧
    (processTmLine ⟨⟨[], [], []⟩, 18446744073709551615, 0⟩ "I[] Executed block".data =
        .error .slicePanic ∧
      exceptOk (runPass processTmLine ⟨⟨[], [], []⟩, 18446744073709551615, 0⟩
        ["I[] Executed block".data]) = false) :=
  ⟨⟨by simp, by decide, by decide⟩,
    c10_tm_slice_panic ⟨⟨[], [], []⟩, 18446744073709551615, 0⟩ ["I[] Executed block".data]
      "I[] Executed block".data (by simp) (by decide) (Or.inl (by decide))⟩

/-! ### C3: a timestamp parse failure is a panic, not a stored record -/

/-- C3 is false on the code: on this concrete consensus-log line the 23-byte
timestamp slice is extracted but fails to parse, the remaining `key=value`
fields all parse (`height=191 validTxs=3368 invalidTxs=666`), and yet the line
processing aborts with an `unwrap` panic — no record with a missing timestamp
is stored (the record's `timestamp` field is not even optional). -/
theorem c3_counterexample :
    ((byteDrop 2 "I[aaaaaaaaaaaaaaaaaaaaaaa] Executed block module=state height=191 validTxs=3368 invalidTxs=666".data).bind
        (byteTake 23) = some "aaaaaaaaaaaaaaaaaaaaaaa".data ∧
      parseTimestamp "aaaaaaaaaaaaaaaaaaaaaaa".data = none ∧
      scanKv (none, none, none)
        (splitWs "I[aaaaaaaaaaaaaaaaaaaaaaa] Executed block module=state height=191 validTxs=3368 invalidTxs=666".data) =
        (some 191, some 3368, some 666)) ∧
    processTmLine ⟨⟨[], [], []⟩, 18446744073709551615, 0⟩
      "I[aaaaaaaaaaaaaaaaaaaaaaa] Executed block module=state height=191 validTxs=3368 invalidTxs=666".data =
      .error .unwrapPanic :=
  ⟨⟨rfl, rfl, rfl⟩, rfl⟩

/-- C3 (amended): for every consensus-log line containing the marker
`"Executed block"` whose 23-byte timestamp slice extracts but fails to parse,
the parse failure itself is swallowed (the timestamp slot is left unset) and
the line is still scanned for the remaining fields, but constructing the
record then unwraps the unset timestamp and panics: the pass aborts with an
`unwrap` panic and no record is stored. -/
theorem c3_ts_parse_failure_panics (s : TmState) (l r ts : List Char)
    (hmark : containsSub l execMarker = true)
    (hdrop : byteDrop 2 l = some r) (htake : byteTake 23 r = some ts)
    (hts : parseTimestamp ts = none) :
    processTmLine s l = .error .unwrapPanic := by
  rcases hkv : scanKv (none, none, none) (splitWs l) with ⟨ho, vio⟩
  rcases vio with ⟨vo, io⟩
  cases ho <;> cases vo <;> cases io <;>
    simp [processTmLine, hmark, hdrop, htake, hts, hkv]

theorem c3_ts_parse_failure_panics_witness :
    (containsSub "I[aaaaaaaaaaaaaaaaaaaaaaa] Executed block height=191 validTxs=3368 invalidTxs=666".data
        execMarker = true ∧
      byteDrop 2 "I[aaaaaaaaaaaaaaaaaaaaaaa] Executed block height=191 validTxs=3368 invalidTxs=666".data =
        some "aaaaaaaaaaaaaaaaaaaaaaa] Executed block height=191 validTxs=3368 invalidTxs=666".data ∧
      byteTake 23 "aaaaaaaaaaaaaaaaaaaaaaa] Executed block height=191 validTxs=3368 invalidTxs=666".data =
        some "aaaaaaaaaaaaaaaaaaaaaaa".data ∧
      parseTimestamp "aaaaaaaaaaaaaaaaaaaaaaa".data = none) ∧
    processTmLine ⟨⟨[], [], []⟩, 18446744073709551615, 0⟩
      "I[aaaaaaaaaaaaaaaaaaaaaaa] Executed block height=191 validTxs=3368 invalidTxs=666".data =
      .error .unwrapPanic :=
  ⟨⟨rfl, rfl, rfl, rfl⟩,
    c3_ts_parse_failure_panics ⟨⟨[], [], []⟩, 18446744073709551615, 0⟩ _ _ _ rfl rfl rfl rfl⟩

/-! ### C5: tx counts of the created record -/

/-- C5 is false on the code at overflowing inputs: on this concrete
consensus-log line `validTxs = 2 ^ 64 - 1` and `invalidTxs = 1` both parse as
`u64`s, a record is created and stored, but the `u64` addition
`validTxs + invalidTxs` wraps, so the stored `tx_count` is `0`, not the exact
sum `2 ^ 64` (which no `u64` field can hold). -/
theorem c5_counterexample :
    scanKv (none, none, none)
      (splitWs "I[2022-04-07|02:17:07.759] Executed block module=state height=191 validTxs=18446744073709551615 invalidTxs=1".data) =
      (some 191, some 18446744073709551615, some 1) ∧
    (processTmLine ⟨⟨[], [], []⟩, 18446744073709551615, 0⟩
        "I[2022-04-07|02:17:07.759] Executed block module=state height=191 validTxs=18446744073709551615 invalidTxs=1".data).map
        (fun s' => (lookupData 191 s'.db.data).map (fun bi => bi.txs)) =
      .ok (some 0) ∧
    (18446744073709551615 + 1 : Nat) ≠ 0 :=
  ⟨rfl, rfl, by decide⟩

/-- C5 (amended): for every consensus-log line containing the marker
`"Executed block"` from which the timestamp slice extracts and parses, and
from which `height`, `validTxs` and `invalidTxs` parse (to `h`, `v`, `i`),
the record the pass creates and stores under `h` has
`txs = (v + i) mod 2 ^ 64` — the `u64` addition wraps — hence `txs = v + i`
exactly whenever the sum fits in a `u64`; and `valid_txs = v`. -/
theorem c5_tx_counts_wrapped (s : TmState) (l r ts : List Char) (t : Int) (h v i : Nat)
    (hmark : containsSub l execMarker = true)
    (hdrop : byteDrop 2 l = some r) (htake : byteTake 23 r = some ts)
    (hts : parseTimestamp ts = some t)
    (hkv : scanKv (none, none, none) (splitWs l) = (some h, some v, some i))
    (hput : h ∉ s.db.putFail) :
    (processTmLine s l).map
        (fun s' => (lookupData h s'.db.data).map (fun bi => (bi.txs, bi.valid_txs))) =
      .ok (some ((v + i) % 18446744073709551616, v)) ∧
    (v + i < 18446744073709551616 →
      (processTmLine s l).map
          (fun s' => (lookupData h s'.db.data).map (fun bi => (bi.txs, bi.valid_txs))) =
        .ok (some (v + i, v))) := by
  constructor
  · simp [processTmLine, hmark, hdrop, htake, hts, hkv, dbInsert, hput, Except.map,
      lookupData_insert_self]
  · intro hlt
    have hmod : (v + i) % 18446744073709551616 = v + i := Nat.mod_eq_of_lt hlt
    simp [processTmLine, hmark, hdrop, htake, hts, hkv, dbInsert, hput, Except.map,
      lookupData_insert_self, hmod]

theorem c5_tx_counts_wrapped_witness :
    (containsSub "I[2022-04-07|02:17:07.759] Executed block module=state height=191 validTxs=3368 invalidTxs=666".data
        execMarker = true ∧
      parseTimestamp "2022-04-07|02:17:07.759".data = some 1649297827 ∧
      scanKv (none, none, none)
        (splitWs "I[2022-04-07|02:17:07.759] Executed block module=state height=191 validTxs=3368 invalidTxs=666".data) =
        (some 191, some 3368, some 666) ∧
      3368 + 666 < 18446744073709551616) ∧
    (processTmLine ⟨⟨[], [], []⟩, 18446744073709551615, 0⟩
        "I[2022-04-07|02:17:07.759] Executed block module=state height=191 validTxs=3368 invalidTxs=666".data).map
        (fun s' => (lookupData 191 s'.db.data).map (fun bi => (bi.txs, bi.valid_txs))) =
      .ok (some (3368 + 666, 3368)) :=
  ⟨⟨rfl, rfl, rfl, by decide⟩,
    (c5_tx_counts_wrapped ⟨⟨[], [], []⟩, 18446744073709551615, 0⟩
      "I[2022-04-07|02:17:07.759] Executed block module=state height=191 validTxs=3368 invalidTxs=666".data
      "2022-04-07|02:17:07.759] Executed block module=state height=191 validTxs=3368 invalidTxs=666".data
      "2022-04-07|02:17:07.759".data 1649297827 191 3368 666
      rfl rfl rfl rfl rfl (by simp)).2 (by decide)⟩

/-! ### C6: an update for an unknown height is a silent no-op -/

/-- C6: for every application-log line carrying one of the three phase
markers whose `td_height` parses to `h`, if the store has no record under `h`
(`get` answers `NotFound`), the whole update is a silent no-op: the pass
returns the store completely unchanged — no record created, none modified,
no error raised. -/
theorem c6_unknown_height_noop (db : Db) (l rest : List Char)
    (words : List (List Char)) (h : Nat)
    (hmark : containsSub l tpsMarker = true)
    (hdrop : byteDrop 52 l = some rest)
    (hwords : splitOnC ',' rest = words)
    (hlast : (words.getLast?).map trimChars = some beginMarker ∨
      (words.getLast?).map trimChars = some endMarker ∨
      (words.getLast?).map trimChars = some commitMarker)
    (hht : parseHeightTok words = .ok h)
    (hget : dbGet db h = .error .notFound) :
    processAbciLine db l = .ok db := by
  rcases hlast with hl | hl | hl <;>
    simp [processAbciLine, hmark, hdrop, hwords, hl, hht, hget,
      beq_markers_1, beq_markers_2, beq_markers_3]

theorem c6_unknown_height_noop_witness :
    (containsSub (List.replicate 52 'x' ++ "tps,commit,2,60,62,td_height 10,end of commit".data)
        tpsMarker = true ∧
      byteDrop 52 (List.replicate 52 'x' ++ "tps,commit,2,60,62,td_height 10,end of commit".data) =
        some "tps,commit,2,60,62,td_height 10,end of commit".data ∧
      parseHeightTok (splitOnC ',' "tps,commit,2,60,62,td_height 10,end of commit".data) = .ok 10 ∧
      dbGet ⟨[], [], []⟩ 10 = .error .notFound) ∧
    processAbciLine ⟨[], [], []⟩
      (List.replicate 52 'x' ++ "tps,commit,2,60,62,td_height 10,end of commit".data) =
      .ok ⟨[], [], []⟩ :=
  ⟨⟨by decide, rfl, rfl, rfl⟩,
    c6_unknown_height_noop ⟨[], [], []⟩
      (List.replicate 52 'x' ++ "tps,commit,2,60,62,td_height 10,end of commit".data)
      "tps,commit,2,60,62,td_height 10,end of commit".data
      (splitOnC ',' "tps,commit,2,60,62,td_height 10,end of commit".data) 10
      (by decide) rfl rfl (Or.inr (Or.inr rfl)) rfl rfl⟩

/-! ### C7: phase updates are frame-preserving read-modify-writes -/

/-- C7: each application-log phase update changes only its own phase fields
of the record at its `td_height` and leaves every other field of that record
and every record at any other height unchanged: a `begin_block` update turns
the fetched record `bi` into `bi` with only `snapshot` and `begin` replaced,
an `end_block` update replaces only `end`, a `commit` update replaces only
`commit_evm` and `commit`; in all three cases the content under every other
key is untouched, so updates to different phases of one height compose
without clobbering. -/
theorem c7_phase_update_frame :
    (∀ (db : Db) (l rest : List Char) (words : List (List Char)) (h snap beg : Nat)
        (bi : BlockInfo) (db' : Db),
      containsSub l tpsMarker = true →
      byteDrop 52 l = some rest →
      splitOnC ',' rest = words →
      (words.getLast?).map trimChars = some beginMarker →
      parseHeightTok words = .ok h →
      dbGet db h = .ok bi →
      bi.height = h →
      getWordNum words 2 = .ok snap →
      getWordNum words 3 = .ok beg →
      processAbciLine db l = .ok db' →
      lookupData h db'.data = some { bi with snapshot := snap, begin := beg } ∧
      ∀ h', h' ≠ h → lookupData h' db'.data = lookupData h' db.data) ∧
    (∀ (db : Db) (l rest : List Char) (words : List (List Char)) (h en : Nat)
        (bi : BlockInfo) (db' : Db),
      containsSub l tpsMarker = true →
      byteDrop 52 l = some rest →
      splitOnC ',' rest = words →
      (words.getLast?).map trimChars = some endMarker →
      parseHeightTok words = .ok h →
      dbGet db h = .ok bi →
      bi.height = h →
      getWordNum words 2 = .ok en →
      processAbciLine db l = .ok db' →
      lookupData h db'.data = some { bi with «end» := en } ∧
      ∀ h', h' ≠ h → lookupData h' db'.data = lookupData h' db.data) ∧
    (∀ (db : Db) (l rest : List Char) (words : List (List Char)) (h cev cm : Nat)
        (bi : BlockInfo) (db' : Db),
      containsSub l tpsMarker = true →
      byteDrop 52 l = some rest →
      splitOnC ',' rest = words →
      (words.getLast?).map trimChars = some commitMarker →
      parseHeightTok words = .ok h →
      dbGet db h = .ok bi →
      bi.height = h →
      getWordNum words 3 = .ok cev →
      getWordNum words 4 = .ok cm →
      processAbciLine db l = .ok db' →
      lookupData h db'.data = some { bi with commit_evm := cev, commit := cm } ∧
      ∀ h', h' ≠ h → lookupData h' db'.data = lookupData h' db.data) := by
  refine ⟨?_, ?_, ?_⟩
  · intro db l rest words h snap beg bi db' hmark hdrop hwords hlast hht hget hhei hw2 hw3 hproc
    subst hhei
    simp [processAbciLine, hmark, hdrop, hwords, hlast, hht, hget, hw2, hw3, dbInsert] at hproc
    by_cases hmem : bi.height ∈ db.putFail
    · simp [hmem] at hproc
    · simp [hmem] at hproc
      subst hproc
      refine ⟨lookupData_insert_self _ _ _, ?_⟩
      intro h' hne
      exact lookupData_insert_ne _ _ _ _ hne
  · intro db l rest words h en bi db' hmark hdrop hwords hlast hht hget hhei hw2 hproc
    subst hhei
    simp [processAbciLine, hmark, hdrop, hwords, hlast, hht, hget, hw2,
      beq_markers_1, dbInsert] at hproc
    by_cases hmem : bi.height ∈ db.putFail
    · simp [hmem] at hproc
    · simp [hmem] at hproc
      subst hproc
      refine ⟨lookupData_insert_self _ _ _, ?_⟩
      intro h' hne
      exact lookupData_insert_ne _ _ _ _ hne
  · intro db l rest words h cev cm bi db' hmark hdrop hwords hlast hht hget hhei hw3 hw4 hproc
    subst hhei
    simp [processAbciLine, hmark, hdrop, hwords, hlast, hht, hget, hw3, hw4,
      beq_markers_2, beq_markers_3, dbInsert] at hproc
    by_cases hmem : bi.height ∈ db.putFail
    · simp [hmem] at hproc
    · simp [hmem] at hproc
      subst hproc
      refine ⟨lookupData_insert_self _ _ _, ?_⟩
      intro h' hne
      exact lookupData_insert_ne _ _ _ _ hne

theorem c7_phase_update_frame_witness :
    (processAbciLine ⟨[(781, ⟨781, 100, 4, 3, none, 0, 0, 0, 0, 0⟩)], [], []⟩
        (List.replicate 52 'x' ++ "tps,begin_block,31,29,td_height 781,end of begin_block".data) =
        .ok ⟨[(781, ⟨781, 100, 4, 3, none, 29, 31, 0, 0, 0⟩)], [], []⟩ ∧
      lookupData 781 [(781, (⟨781, 100, 4, 3, none, 29, 31, 0, 0, 0⟩ : BlockInfo))] =
        some ⟨781, 100, 4, 3, none, 29, 31, 0, 0, 0⟩) ∧
    (processAbciLine ⟨[(781, ⟨781, 100, 4, 3, none, 0, 0, 0, 0, 0⟩)], [], []⟩
        (List.replicate 52 'x' ++ "tps,end_block,6,td_height 781,end of end_block".data) =
        .ok ⟨[(781, ⟨781, 100, 4, 3, none, 0, 0, 6, 0, 0⟩)], [], []⟩ ∧
      lookupData 781 [(781, (⟨781, 100, 4, 3, none, 0, 0, 6, 0, 0⟩ : BlockInfo))] =
        some ⟨781, 100, 4, 3, none, 0, 0, 6, 0, 0⟩) ∧
    (processAbciLine ⟨[(781, ⟨781, 100, 4, 3, none, 0, 0, 0, 0, 0⟩)], [], []⟩
        (List.replicate 52 'x' ++ "tps,commit,2,60,62,td_height 781,end of commit".data) =
        .ok ⟨[(781, ⟨781, 100, 4, 3, none, 0, 0, 0, 62, 60⟩)], [], []⟩ ∧
      lookupData 781 [(781, (⟨781, 100, 4, 3, none, 0, 0, 0, 62, 60⟩ : BlockInfo))] =
        some ⟨781, 100, 4, 3, none, 0, 0, 0, 62, 60⟩) :=
  ⟨⟨rfl,
      (c7_phase_update_frame.1 ⟨[(781, ⟨781, 100, 4, 3, none, 0, 0, 0, 0, 0⟩)], [], []⟩
        (List.replicate 52 'x' ++ "tps,begin_block,31,29,td_height 781,end of begin_block".data)
        "tps,begin_block,31,29,td_height 781,end of begin_block".data
        (splitOnC ',' "tps,begin_block,31,29,td_height 781,end of begin_block".data)
        781 31 29 ⟨781, 100, 4, 3, none, 0, 0, 0, 0, 0⟩
        ⟨[(781, ⟨781, 100, 4, 3, none, 29, 31, 0, 0, 0⟩)], [], []⟩
        (by decide) rfl rfl rfl rfl rfl rfl rfl rfl rfl).1⟩,
    ⟨rfl,
      (c7_phase_update_frame.2.1 ⟨[(781, ⟨781, 100, 4, 3, none, 0, 0, 0, 0, 0⟩)], [], []⟩
        (List.replicate 52 'x' ++ "tps,end_block,6,td_height 781,end of end_block".data)
        "tps,end_block,6,td_height 781,end of end_block".data
        (splitOnC ',' "tps,end_block,6,td_height 781,end of end_block".data)
        781 6 ⟨781, 100, 4, 3, none, 0, 0, 0, 0, 0⟩
        ⟨[(781, ⟨781, 100, 4, 3, none, 0, 0, 6, 0, 0⟩)], [], []⟩
        (by decide) rfl rfl rfl rfl rfl rfl rfl rfl).1⟩,
    ⟨rfl,
      (c7_phase_update_frame.2.2 ⟨[(781, ⟨781, 100, 4, 3, none, 0, 0, 0, 0, 0⟩)], [], []⟩
        (List.replicate 52 'x' ++ "tps,commit,2,60,62,td_height 781,end of commit".data)
        "tps,commit,2,60,62,td_height 781,end of commit".data
        (splitOnC ',' "tps,commit,2,60,62,td_height 781,end of commit".data)
        781 60 62 ⟨781, 100, 4, 3, none, 0, 0, 0, 0, 0⟩
        ⟨[(781, ⟨781, 100, 4, 3, none, 0, 0, 0, 62, 60⟩)], [], []⟩
        (by decide) rfl rfl rfl rfl rfl rfl rfl rfl rfl).1⟩⟩

/-! ### C4: store failure handling -/

/-- C4 is false on the code: here the store holds a record under height 10
but the transport fails on `get(10)` with an I/O failure (not `NotFound`) —
and the application-log pass silently treats the failed `get` exactly like a
missing record: it returns the store unchanged and raises no error, instead
of aborting with a store-access failure. -/
theorem c4_counterexample :
    dbGet ⟨[(10, ⟨10, 100, 4, 3, none, 0, 0, 0, 0, 0⟩)], [10], []⟩ 10 = .error .ioFailure ∧
    processAbciLine ⟨[(10, ⟨10, 100, 4, 3, none, 0, 0, 0, 0, 0⟩)], [10], []⟩
      (List.replicate 52 'x' ++ "tps,commit,2,60,62,td_height 10,end of commit".data) =
      .ok ⟨[(10, ⟨10, 100, 4, 3, none, 0, 0, 0, 0, 0⟩)], [10], []⟩ :=
  ⟨rfl, rfl⟩

/-- C4 (amended): store put failures are fatal — a failed insert aborts the
consensus-log pass with a store-failure panic distinct from the parse
panics — but store get failures are not: a get that fails with an I/O error
during the application-log pass is silently treated as a missing record (the
update is dropped, the store is returned unchanged, and no error is
raised). -/
theorem c4_amended_store_failures :
    (∀ (s : TmState) (l r ts : List Char) (t : Int) (h v i : Nat),
      containsSub l execMarker = true →
      byteDrop 2 l = some r →
      byteTake 23 r = some ts →
      parseTimestamp ts = some t →
      scanKv (none, none, none) (splitWs l) = (some h, some v, some i) →
      s.db.putFail.contains h = true →
      processTmLine s l = .error .insertPanic) ∧
    (∀ (db : Db) (l rest : List Char) (words : List (List Char)) (h : Nat),
      containsSub l tpsMarker = true →
      byteDrop 52 l = some rest →
      splitOnC ',' rest = words →
      ((words.getLast?).map trimChars = some beginMarker ∨
        (words.getLast?).map trimChars = some endMarker ∨
        (words.getLast?).map trimChars = some commitMarker) →
      parseHeightTok words = .ok h →
      dbGet db h = .error .ioFailure →
      processAbciLine db l = .ok db) := by
  refine ⟨?_, ?_⟩
  · intro s l r ts t h v i hmark hdrop htake hts hkv hput
    have hmem : h ∈ s.db.putFail := by simpa using hput
    simp [processTmLine, hmark, hdrop, htake, hts, hkv, dbInsert, hmem]
  · intro db l rest words h hmark hdrop hwords hlast hht hget
    rcases hlast with hl | hl | hl <;>
      simp [processAbciLine, hmark, hdrop, hwords, hl, hht, hget,
        beq_markers_1, beq_markers_2, beq_markers_3]

theorem c4_amended_store_failures_witness :
    (containsSub "I[2022-04-07|02:17:07.759] Executed block height=191 validTxs=3368 invalidTxs=666".data
        execMarker = true ∧
      (⟨⟨[], [], [191]⟩, 18446744073709551615, 0⟩ : TmState).db.putFail.contains 191 = true ∧
      dbGet ⟨[], [12], []⟩ 12 = .error .ioFailure) ∧
    (processTmLine ⟨⟨[], [], [191]⟩, 18446744073709551615, 0⟩
        "I[2022-04-07|02:17:07.759] Executed block height=191 validTxs=3368 invalidTxs=666".data =
        .error .insertPanic ∧
      processAbciLine ⟨[], [12], []⟩
        (List.replicate 52 'x' ++ "tps,commit,2,60,62,td_height 12,end of commit".data) =
        .ok ⟨[], [12], []⟩) :=
  ⟨⟨by decide, by decide, rfl⟩,
    c4_amended_store_failures.1 ⟨⟨[], [], [191]⟩, 18446744073709551615, 0⟩ _ _ _ 1649297827
      191 3368 666 rfl rfl rfl rfl rfl rfl,
    c4_amended_store_failures.2 ⟨[], [12], []⟩
      (List.replicate 52 'x' ++ "tps,commit,2,60,62,td_height 12,end of commit".data)
      "tps,commit,2,60,62,td_height 12,end of commit".data
      (splitOnC ',' "tps,commit,2,60,62,td_height 12,end of commit".data) 12
      (by decide) rfl rfl (Or.inr (Or.inr rfl)) rfl rfl⟩

/-! ### C2: the load flag is dead -/

/-- C2 is wrong about the code (a code bug): `etl_cmd` accepts the `load`
flag (documented as skipping re-ingestion), prints it, and never reads it
again — the pipeline behaves identically for `load = true` and
`load = false`, and with `load = true` the consensus log is still fully
re-ingested: on the sample line the store ends up overwritten with a fresh
record for height 191. -/
theorem c2_load_flag_unused :
    (∀ (db : Db) (tmLines abciLines : List (List Char)),
      etlCmd db tmLines abciLines true = etlCmd db tmLines abciLines false) ∧
    (etlCmd ⟨[], [], []⟩
        ["I[2022-04-07|02:17:07.759] Executed block module=state height=191 validTxs=3368 invalidTxs=666".data]
        [] true).map (fun p => lookupData 191 p.1.db.data) =
      .ok (some ⟨191, 1649297827, 4034, 3368, none, 0, 0, 0, 0, 0⟩) :=
  ⟨fun _ _ _ => rfl, rfl⟩

/-! ### C8: the report is one line per present record, strictly ascending -/

theorem exceptToOption_eq_some {ε α : Type} (e : Except ε α) (a : α) :
    e.toOption = some a ↔ e = .ok a := by
  cases e <;> simp [Except.toOption]

theorem dbGet_ok_lookup (db : Db) (h : Nat) (bi : BlockInfo)
    (hok : dbGet db h = .ok bi) : lookupData h db.data = some bi := by
  unfold dbGet at hok
  split at hok
  · cases hok
  · cases hl : lookupData h db.data with
    | none => rw [hl] at hok; cases hok
    | some bi' => rw [hl] at hok; cases hok; rfl

theorem pairwise_heights_filterMap (f : Nat → Option BlockInfo)
    (hf : ∀ h bi, f h = some bi → bi.height = h) :
    ∀ L : List Nat, L.Pairwise (· < ·) →
      ((L.filterMap f).map (fun bi => bi.height)).Pairwise (· < ·) := by
  intro L
  induction L with
  | nil => intro _; simp
  | cons x xs ih =>
    intro hp
    rcases List.pairwise_cons.mp hp with ⟨hx, hxs⟩
    cases hfx : f x with
    | none =>
      simp only [List.filterMap_cons, hfx]
      exact ih hxs
    | some bi =>
      simp only [List.filterMap_cons, hfx, List.map_cons]
      refine List.pairwise_cons.mpr ⟨?_, ih hxs⟩
      intro y hy
      rcases List.mem_map.mp hy with ⟨bj, hbj, rfl⟩
      rcases List.mem_filterMap.mp hbj with ⟨h', hh', hfh'⟩
      rw [hf x bi hfx, hf h' bj hfh']
      exact hx h' hh'

/-- C8: over a well-formed store (each entry keyed by its record's height),
the report loop for `[lo, hi]` emits heights in strictly increasing order with
no duplicates, contains exactly the records whose `get` succeeds for a height
in range (heights with no stored record are silently skipped), and prints one
`Display`-formatted line per record in that order (fields: height, block_time
or 0, txs, begin, snapshot, end, commit, commit_evm). -/
theorem c8_report_order (db : Db) (lo hi : Nat) (hlohi : lo ≤ hi)
    (hwf : wellFormedB db = true) :
    ((reportRecs db lo hi).map (fun bi => bi.height)).Pairwise (· < ·) ∧
    (∀ bi, bi ∈ reportRecs db lo hi ↔
      (lo ≤ bi.height ∧ bi.height ≤ hi ∧ dbGet db bi.height = .ok bi)) ∧
    reportLines db lo hi = (reportRecs db lo hi).map formatBlockInfo := by
  have hf : ∀ h bi, (dbGet db h).toOption = some bi → bi.height = h := by
    intro h bi hopt
    rw [exceptToOption_eq_some] at hopt
    exact wf_lookup_height db hwf (dbGet_ok_lookup db h bi hopt)
  refine ⟨?_, ?_, ?_⟩
  · simp only [reportRecs]
    exact pairwise_heights_filterMap _ hf _ (List.pairwise_lt_range' lo (hi + 1 - lo))
  · intro bi
    simp only [reportRecs]
    constructor
    · intro hmem
      rcases List.mem_filterMap.mp hmem with ⟨h, hh, hfh⟩
      have hhei := hf h bi hfh
      rw [exceptToOption_eq_some] at hfh
      rcases List.mem_range'_1.mp hh with ⟨h1, h2⟩
      subst hhei
      exact ⟨h1, by omega, hfh⟩
    · rintro ⟨h1, h2, hok⟩
      apply List.mem_filterMap.mpr
      refine ⟨bi.height, List.mem_range'_1.mpr (by omega), ?_⟩
      rw [exceptToOption_eq_some]
      exact hok
  · simp only [reportRecs, reportLines]
    exact (List.map_filterMap _ _ _).symm

theorem c8_report_order_witness :
    (5 ≤ 8 ∧
      wellFormedB ⟨[(5, ⟨5, 100, 4, 3, none, 0, 0, 0, 0, 0⟩),
        (6, ⟨6, 106, 5, 5, some 6, 0, 0, 0, 0, 0⟩),
        (8, ⟨8, 120, 1, 1, none, 0, 0, 0, 0, 0⟩)], [], []⟩ = true) ∧
    (((reportRecs ⟨[(5, ⟨5, 100, 4, 3, none, 0, 0, 0, 0, 0⟩),
        (6, ⟨6, 106, 5, 5, some 6, 0, 0, 0, 0, 0⟩),
        (8, ⟨8, 120, 1, 1, none, 0, 0, 0, 0, 0⟩)], [], []⟩ 5 8).map
          (fun bi => bi.height)).Pairwise (· < ·) ∧
      reportLines ⟨[(5, ⟨5, 100, 4, 3, none, 0, 0, 0, 0, 0⟩),
        (6, ⟨6, 106, 5, 5, some 6, 0, 0, 0, 0, 0⟩),
        (8, ⟨8, 120, 1, 1, none, 0, 0, 0, 0, 0⟩)], [], []⟩ 5 8 =
        (reportRecs ⟨[(5, ⟨5, 100, 4, 3, none, 0, 0, 0, 0, 0⟩),
          (6, ⟨6, 106, 5, 5, some 6, 0, 0, 0, 0, 0⟩),
          (8, ⟨8, 120, 1, 1, none, 0, 0, 0, 0, 0⟩)], [], []⟩ 5 8).map formatBlockInfo) :=
  ⟨⟨by decide, by decide⟩,
    (c8_report_order ⟨[(5, ⟨5, 100, 4, 3, none, 0, 0, 0, 0, 0⟩),
        (6, ⟨6, 106, 5, 5, some 6, 0, 0, 0, 0, 0⟩),
        (8, ⟨8, 120, 1, 1, none, 0, 0, 0, 0, 0⟩)], [], []⟩ 5 8
      (by decide) (by decide)).1,
    (c8_report_order ⟨[(5, ⟨5, 100, 4, 3, none, 0, 0, 0, 0, 0⟩),
        (6, ⟨6, 106, 5, 5, some 6, 0, 0, 0, 0, 0⟩),
        (8, ⟨8, 120, 1, 1, none, 0, 0, 0, 0, 0⟩)], [], []⟩ 5 8
      (by decide) (by decide)).2.2⟩

/-! ### C1: correctness of the derive pass -/

theorem dbInsert_ok (db : Db) (h : Nat) (bi : BlockInfo) (db2 : Db)
    (hins : dbInsert db h bi = .ok db2) :
    db2 = { db with data := insertData h bi db.data } := by
  unfold dbInsert at hins
  split at hins
  · cases hins
  · cases hins
    rfl

theorem deriveStep_cases (db : Db) (h : Nat) (db2 : Db)
    (hstep : deriveStep db h = .ok db2) :
    (∃ cur prev, dbGet db h = .ok cur ∧ dbGet db (h - 1) = .ok prev ∧
      prev.timestamp ≤ cur.timestamp ∧
      db2 = { db with data := (insertData h
        { cur with block_time := some (cur.timestamp - prev.timestamp).toNat } db.data) }) ∨
    (∃ cur prev, dbGet db h = .ok cur ∧ dbGet db (h - 1) = .ok prev ∧
      cur.timestamp < prev.timestamp ∧ db2 = db) ∨
    (((∀ cur, dbGet db h ≠ .ok cur) ∨ (∀ prev, dbGet db (h - 1) ≠ .ok prev)) ∧
      db2 = db) := by
  unfold deriveStep at hstep
  cases hg1 : dbGet db h with
  | error e =>
    simp only [hg1] at hstep
    refine Or.inr (Or.inr ⟨Or.inl ?_, ?_⟩)
    · intro cur hc
      cases hc
    · cases hstep
      rfl
  | ok cur =>
    cases hg2 : dbGet db (h - 1) with
    | error e2 =>
      simp only [hg1, hg2] at hstep
      refine Or.inr (Or.inr ⟨Or.inr ?_, ?_⟩)
      · intro prev hc
        cases hc
      · cases hstep
        rfl
    | ok prev =>
      simp only [hg1, hg2] at hstep
      split at hstep
      · next hle =>
        cases hins : dbInsert db h
            { cur with block_time := some (cur.timestamp - prev.timestamp).toNat } with
        | ok dbI =>
          rw [hins] at hstep
          cases hstep
          exact Or.inl ⟨cur, prev, rfl, rfl, hle, dbInsert_ok _ _ _ _ hins⟩
        | error u =>
          rw [hins] at hstep
          cases hstep
      · next hnle =>
        cases hstep
        exact Or.inr (Or.inl ⟨cur, prev, rfl, rfl, by omega, rfl⟩)

theorem deriveStep_fields (db : Db) (h : Nat) (db2 : Db)
    (hstep : deriveStep db h = .ok db2) :
    db2.getFail = db.getFail ∧ db2.putFail = db.putFail := by
  rcases deriveStep_cases db h db2 hstep with
    ⟨cur, prev, _, _, _, heq⟩ | ⟨cur, prev, _, _, _, heq⟩ | ⟨_, heq⟩ <;>
    subst heq <;> exact ⟨rfl, rfl⟩

theorem deriveStep_frame (db : Db) (h : Nat) (db2 : Db)
    (hstep : deriveStep db h = .ok db2) :
    ∀ h', h' ≠ h → lookupData h' db2.data = lookupData h' db.data := by
  intro h' hne
  rcases deriveStep_cases db h db2 hstep with
    ⟨cur, prev, _, _, _, heq⟩ | ⟨cur, prev, _, _, _, heq⟩ | ⟨_, heq⟩ <;> subst heq
  · exact lookupData_insert_ne _ _ _ _ hne
  · rfl
  · rfl

theorem deriveStep_strip (db : Db) (h : Nat) (db2 : Db)
    (hstep : deriveStep db h = .ok db2) :
    ∀ h', (lookupData h' db2.data).map stripBT = (lookupData h' db.data).map stripBT := by
  intro h'
  by_cases hne : h' = h
  · subst hne
    rcases deriveStep_cases db h' db2 hstep with
      ⟨cur, prev, hg1, _, _, heq⟩ | ⟨cur, prev, _, _, _, heq⟩ | ⟨_, heq⟩ <;> subst heq
    · have hl := dbGet_ok_lookup db h' cur hg1
      have hi := lookupData_insert_self h'
        { cur with block_time := some (cur.timestamp - prev.timestamp).toNat } db.data
      simp only [hi, hl]
      rfl
    · rfl
    · rfl
  · rw [deriveStep_frame db h db2 hstep h' hne]

theorem dbGet_of_no_getFail (db : Db) (hgf : db.getFail = []) (h : Nat) :
    dbGet db h = (match lookupData h db.data with
      | some bi => .ok bi
      | none => .error .notFound) := by
  unfold dbGet
  rw [hgf]
  rfl

theorem dbGet_ok_iff_lookup (db : Db) (hgf : db.getFail = []) (h : Nat) (bi : BlockInfo) :
    dbGet db h = .ok bi ↔ lookupData h db.data = some bi := by
  rw [dbGet_of_no_getFail db hgf h]
  cases hl : lookupData h db.data with
  | none => simp
  | some bi' => simp

/-- The inductive core of the derive-pass proof: running `deriveStep` over an
ascending list of positive heights (over a store with no injected get
failures, whose records at those heights all start with `block_time` unset)
changes nothing outside the list, changes only `block_time` anywhere, and
establishes the spec's block-time property at every processed height. -/
theorem derive_run_spec :
    ∀ (L : List Nat) (db db' : Db),
      db.getFail = [] →
      L.Pairwise (· < ·) →
      (∀ h ∈ L, 0 < h) →
      (∀ h ∈ L, ∀ bi, lookupData h db.data = some bi → bi.block_time = none) →
      runPass deriveStep db L = .ok db' →
      (∀ h, h ∉ L → lookupData h db'.data = lookupData h db.data) ∧
      (∀ h, (lookupData h db'.data).map stripBT = (lookupData h db.data).map stripBT) ∧
      (∀ h ∈ L,
        (∀ cur prev, lookupData h db'.data = some cur →
          lookupData (h - 1) db'.data = some prev →
          (prev.timestamp ≤ cur.timestamp →
            cur.block_time = some (cur.timestamp - prev.timestamp).toNat) ∧
          (cur.timestamp < prev.timestamp → cur.block_time = none)) ∧
        (∀ cur, lookupData h db'.data = some cur →
          lookupData (h - 1) db'.data = none → cur.block_time = none)) := by
  intro L
  induction L with
  | nil =>
    intro db db' hgf hpw hpos hbt hrun
    cases hrun
    exact ⟨fun h _ => rfl, fun h => rfl, fun h hh => absurd hh (List.not_mem_nil h)⟩
  | cons x xs ih =>
    intro db db' hgf hpw hpos hbt hrun
    simp only [runPass] at hrun
    cases hstep : deriveStep db x with
    | error e =>
      rw [hstep] at hrun
      cases hrun
    | ok db2 =>
      rw [hstep] at hrun
      rcases List.pairwise_cons.mp hpw with ⟨hxlt, hpw'⟩
      have hxpos : 0 < x := hpos x (List.mem_cons_self x xs)
      have hfields := deriveStep_fields db x db2 hstep
      have hgf2 : db2.getFail = [] := by rw [hfields.1, hgf]
      have hframe2 := deriveStep_frame db x db2 hstep
      have hstrip2 := deriveStep_strip db x db2 hstep
      have hbt2 : ∀ h ∈ xs, ∀ bi, lookupData h db2.data = some bi → bi.block_time = none := by
        intro h hh bi hl
        have hne : h ≠ x := by
          intro he
          subst he
          exact absurd (hxlt h hh) (lt_irrefl h)
        rw [hframe2 h hne] at hl
        exact hbt h (List.mem_cons_of_mem _ hh) bi hl
      have hpos2 : ∀ h ∈ xs, 0 < h := fun h hh => hpos h (List.mem_cons_of_mem _ hh)
      rcases ih db2 db' hgf2 hpw' hpos2 hbt2 hrun with ⟨ihframe, ihstrip, ihmain⟩
      have hxnot : x ∉ xs := by
        intro hm
        exact absurd (hxlt x hm) (lt_irrefl x)
      have hx1not : x - 1 ∉ xs := by
        intro hm
        have := hxlt (x - 1) hm
        omega
      have hlook_x : lookupData x db'.data = lookupData x db2.data := ihframe x hxnot
      have hlook_x1 : lookupData (x - 1) db'.data = lookupData (x - 1) db2.data :=
        ihframe _ hx1not
      have hx1_db : lookupData (x - 1) db2.data = lookupData (x - 1) db.data := by
        have hne : x - 1 ≠ x := by omega
        exact hframe2 _ hne
      refine ⟨?_, ?_, ?_⟩
      · intro h hh
        have hne : h ≠ x := by
          intro he
          exact hh (he ▸ List.mem_cons_self x xs)
        have hnxs : h ∉ xs := fun hm => hh (List.mem_cons_of_mem _ hm)
        rw [ihframe h hnxs, hframe2 h hne]
      · intro h
        rw [ihstrip h, hstrip2 h]
      · intro h hh
        rcases List.mem_cons.mp hh with rfl | hmem
        · rcases deriveStep_cases db h db2 hstep with
            ⟨cur', prev', hg1, hg2, hle, heq⟩ | ⟨cur', prev', hg1, hg2, hlt, heq⟩ |
            ⟨hfail, heq⟩
          · have hcur2 : lookupData h db2.data =
                some { cur' with block_time := some (cur'.timestamp - prev'.timestamp).toNat } := by
              rw [heq]
              exact lookupData_insert_self _ _ _
            have hprev_db : lookupData (h - 1) db.data = some prev' :=
              dbGet_ok_lookup _ _ _ hg2
            constructor
            · intro cur prev hcur hprev
              rw [hlook_x, hcur2] at hcur
              cases hcur
              rw [hlook_x1, hx1_db, hprev_db] at hprev
              cases hprev
              constructor
              · intro _
                rfl
              · intro hcontra
                have hc2 : cur'.timestamp < prev'.timestamp := hcontra
                omega
            · intro cur hcur hprev
              rw [hlook_x1, hx1_db, hprev_db] at hprev
              cases hprev
          · have hcur_db2 : lookupData h db2.data = some cur' := by
              rw [heq]
              exact dbGet_ok_lookup _ _ _ hg1
            have hprev_db2 : lookupData (h - 1) db2.data = some prev' := by
              rw [heq]
              exact dbGet_ok_lookup _ _ _ hg2
            constructor
            · intro cur prev hcur hprev
              rw [hlook_x, hcur_db2] at hcur
              cases hcur
              rw [hlook_x1, hprev_db2] at hprev
              cases hprev
              constructor
              · intro hcontra
                omega
              · intro _
                exact hbt h (List.mem_cons_self h xs) cur' (dbGet_ok_lookup _ _ _ hg1)
            · intro cur hcur hprev
              rw [hlook_x1, hprev_db2] at hprev
              cases hprev
          · constructor
            · intro cur prev hcur hprev
              rw [hlook_x, heq] at hcur
              rw [hlook_x1, hx1_db] at hprev
              rcases hfail with hf | hf
              · exact absurd ((dbGet_ok_iff_lookup db hgf h cur).mpr hcur) (hf cur)
              · exact absurd ((dbGet_ok_iff_lookup db hgf (h - 1) prev).mpr hprev) (hf prev)
            · intro cur hcur hprev
              rw [hlook_x, heq] at hcur
              exact hbt h (List.mem_cons_self h xs) cur hcur
        · exact ihmain h hmem

/-- C1: after the derive pass over `(lo, hi]` (run on a store with no injected
get failures whose records all start with `block_time` unset, as the ingestion
passes leave them), for every height `h` in `(lo, hi]`: if records are present
at both `h` and `h - 1` and `timestamp(h) ≥ timestamp(h-1)`, the stored record
at `h` has `block_time = timestamp(h) - timestamp(h-1)`; if
`timestamp(h) < timestamp(h-1)`, or the record at `h - 1` is absent,
`block_time(h)` is left unset; and the record at `lo` (the minimum height)
always has `block_time` unset. -/
theorem c1_derive_block_time (db db' : Db) (lo hi : Nat)
    (hgf : db.getFail = [])
    (hbt : ∀ h bi, lookupData h db.data = some bi → bi.block_time = none)
    (hrun : derivePass db lo hi = .ok db') :
    (∀ h, lo < h → h ≤ hi →
      (∀ cur prev, lookupData h db'.data = some cur →
        lookupData (h - 1) db'.data = some prev →
        (prev.timestamp ≤ cur.timestamp →
          cur.block_time = some (cur.timestamp - prev.timestamp).toNat) ∧
        (cur.timestamp < prev.timestamp → cur.block_time = none)) ∧
      (∀ cur, lookupData h db'.data = some cur →
        lookupData (h - 1) db'.data = none → cur.block_time = none)) ∧
    (∀ cur, lookupData lo db'.data = some cur → cur.block_time = none) := by
  unfold derivePass at hrun
  have hrange : ∀ h, h ∈ List.range' (lo + 1) (hi - lo) ↔ (lo < h ∧ h ≤ hi) := by
    intro h
    rw [List.mem_range'_1]
    omega
  rcases derive_run_spec (List.range' (lo + 1) (hi - lo)) db db' hgf
      (List.pairwise_lt_range' _ _)
      (fun h hh => by have := (hrange h).mp hh; omega)
      (fun h _ bi hl => hbt h bi hl)
      hrun with ⟨hframe, hstrip, hmain⟩
  constructor
  · intro h h1 h2
    exact hmain h ((hrange h).mpr ⟨h1, h2⟩)
  · intro cur hcur
    have hlo_not : lo ∉ List.range' (lo + 1) (hi - lo) := by
      rw [hrange]
      omega
    rw [hframe lo hlo_not] at hcur
    exact hbt lo cur hcur

theorem c1_derive_block_time_witness :
    ((⟨[(5, ⟨5, 100, 4, 3, none, 0, 0, 0, 0, 0⟩), (6, ⟨6, 106, 5, 5, none, 0, 0, 0, 0, 0⟩)],
        [], []⟩ : Db).getFail = [] ∧
      derivePass ⟨[(5, ⟨5, 100, 4, 3, none, 0, 0, 0, 0, 0⟩),
        (6, ⟨6, 106, 5, 5, none, 0, 0, 0, 0, 0⟩)], [], []⟩ 5 6 =
        .ok ⟨[(6, ⟨6, 106, 5, 5, some 6, 0, 0, 0, 0, 0⟩),
          (5, ⟨5, 100, 4, 3, none, 0, 0, 0, 0, 0⟩)], [], []⟩) ∧
    ((⟨6, 106, 5, 5, some 6, 0, 0, 0, 0, 0⟩ : BlockInfo).block_time =
        some (((⟨6, 106, 5, 5, some 6, 0, 0, 0, 0, 0⟩ : BlockInfo).timestamp -
          (⟨5, 100, 4, 3, none, 0, 0, 0, 0, 0⟩ : BlockInfo).timestamp).toNat) ∧
      (⟨5, 100, 4, 3, none, 0, 0, 0, 0, 0⟩ : BlockInfo).block_time = none) :=
  ⟨⟨rfl, rfl⟩,
    (((c1_derive_block_time
        ⟨[(5, ⟨5, 100, 4, 3, none, 0, 0, 0, 0, 0⟩), (6, ⟨6, 106, 5, 5, none, 0, 0, 0, 0, 0⟩)],
          [], []⟩
        ⟨[(6, ⟨6, 106, 5, 5, some 6, 0, 0, 0, 0, 0⟩), (5, ⟨5, 100, 4, 3, none, 0, 0, 0, 0, 0⟩)],
          [], []⟩
        5 6 rfl
        (by
          intro h bi hl
          simp only [lookupData] at hl
          split at hl
          · cases hl; rfl
          · split at hl
            · cases hl; rfl
            · cases hl)
        rfl).1 6 (by omega) (by omega)).1
      ⟨6, 106, 5, 5, some 6, 0, 0, 0, 0, 0⟩ ⟨5, 100, 4, 3, none, 0, 0, 0, 0, 0⟩ rfl rfl).1
      (by decide),
    (c1_derive_block_time
        ⟨[(5, ⟨5, 100, 4, 3, none, 0, 0, 0, 0, 0⟩), (6, ⟨6, 106, 5, 5, none, 0, 0, 0, 0, 0⟩)],
          [], []⟩
        ⟨[(6, ⟨6, 106, 5, 5, some 6, 0, 0, 0, 0, 0⟩), (5, ⟨5, 100, 4, 3, none, 0, 0, 0, 0, 0⟩)],
          [], []⟩
        5 6 rfl
        (by
          intro h bi hl
          simp only [lookupData] at hl
          split at hl
          · cases hl; rfl
          · split at hl
            · cases hl; rfl
            · cases hl)
        rfl).2 ⟨5, 100, 4, 3, none, 0, 0, 0, 0, 0⟩ rfl⟩

end FindoraEtl
